import Mathlib

/-!
Verification of the Detective Quest engine (src/algoritmos_avancados.c).

C strings are modelled as lists of bytes (`List Nat`, each entry a nonzero
byte value; the terminating NUL is implicit as the end of the list).
`strcmp` on such strings is byte-wise lexicographic comparison where a
shorter string that is a prefix of a longer one compares smaller (the NUL
terminator, value 0, is smaller than every string byte).

Capacities from the source: MAX_NOME = 64 (so at most 63 payload bytes),
MAX_PISTA = 128 (at most 127 payload bytes), HASH_SIZE = 101.
`strncpy(dst, src, CAP-1); dst[CAP-1] = 0` is modelled as `List.take (CAP-1)`.
-/

namespace DetectiveQuest

/-- Byte-wise `strcmp` on NUL-free byte strings:
first differing byte decides; end-of-string compares below any byte. -/
def strcmpList : List Nat → List Nat → Ordering
  | [], [] => Ordering.eq
  | [], _ :: _ => Ordering.lt
  | _ :: _, [] => Ordering.gt
  | a :: as, b :: bs =>
      if a < b then Ordering.lt
      else if b < a then Ordering.gt
      else strcmpList as bs

/-! ## The Clue Set: BST of collected clues (struct pistaNode) -/

/-- BST of collected clue strings; `leaf` is the NULL pointer. -/
inductive PistaTree : Type
  | leaf : PistaTree
  | node : PistaTree → List Nat → PistaTree → PistaTree
deriving DecidableEq

/-- `inserirPista`: returns the tree unchanged for an empty clue; otherwise
descends by `strcmp`, creating a node holding the first 127 bytes of the
clue (strncpy with MAX_PISTA-1) at the first empty slot; equal keys are
not re-inserted. -/
def inserirPista : PistaTree → List Nat → PistaTree
  | raiz, [] => raiz
  | PistaTree.leaf, p@(_ :: _) =>
      PistaTree.node PistaTree.leaf (p.take 127) PistaTree.leaf
  | PistaTree.node esq q dir, p@(_ :: _) =>
      match strcmpList p q with
      | Ordering.lt => PistaTree.node (inserirPista esq p) q dir
      | Ordering.eq => PistaTree.node esq q dir
      | Ordering.gt => PistaTree.node esq q (inserirPista dir p)

/-- `exibirPistas`: in-order traversal; models the printed enumeration as
the list of clue texts in the order they are printed. -/
def exibirPistas : PistaTree → List (List Nat)
  | PistaTree.leaf => []
  | PistaTree.node esq p dir => exibirPistas esq ++ p :: exibirPistas dir

/-- `a` is at or below `b` in the byte-string order (`strcmp(a,b) <= 0`). -/
def pistaLe (a b : List Nat) : Prop := strcmpList a b ≠ Ordering.gt

/-- Shape invariant of every reachable Clue Set: every stored key fits in the
127-byte buffer, keys in the left subtree compare strictly below the node
key, and keys in the right subtree compare at or above it (equal keys can
arise in the right subtree from over-long insertions, see the C10 analysis). -/
inductive Inv : PistaTree → Prop
  | leaf : Inv PistaTree.leaf
  | node {esq dir : PistaTree} {q : List Nat} :
      Inv esq → Inv dir → q.length ≤ 127 →
      (∀ k ∈ exibirPistas esq, strcmpList k q = Ordering.lt) →
      (∀ k ∈ exibirPistas dir, pistaLe q k) →
      Inv (PistaTree.node esq q dir)

/-- Strict BST invariant: holds for Clue Sets built from clues that fit in
the 127-byte buffer; forces the in-order enumeration to be duplicate-free. -/
inductive SInv : PistaTree → Prop
  | leaf : SInv PistaTree.leaf
  | node {esq dir : PistaTree} {q : List Nat} :
      SInv esq → SInv dir →
      (∀ k ∈ exibirPistas esq, strcmpList k q = Ordering.lt) →
      (∀ k ∈ exibirPistas dir, strcmpList q k = Ordering.lt) →
      SInv (PistaTree.node esq q dir)

/-! ## The Suspect Index: fixed-size chained hash table (struct hashEntry) -/

/-- One chain entry: (clue key, suspect value). -/
def HashEntry : Type := List Nat × List Nat

instance : DecidableEq HashEntry := instDecidableEqProd

/-- The table, as the chain hanging off each bucket index.
Only buckets `0..100` (`HASH_SIZE = 101`) are ever addressed. -/
def Table : Type := Nat → List HashEntry

/-- `hash_string`: h = 5381; h = h*33 + c over the bytes, in a 64-bit
unsigned long (wraparound modelled by reducing mod 2^64 at each step). -/
def hash_string (s : List Nat) : Nat :=
  s.foldl (fun h c => (h * 33 + c) % (2 ^ 64)) 5381

/-- The scan-and-overwrite loop of `inserirNaHash`: finds the first entry
whose key equals `pista` exactly and overwrites its suspect with the first
63 bytes of `suspeito` (strncpy with MAX_NOME-1); `none` when no entry
matches. -/
def updateFirst : List HashEntry → List Nat → List Nat → Option (List HashEntry)
  | [], _, _ => none
  | e :: resto, pista, suspeito =>
      if e.1 = pista then some ((e.1, suspeito.take 63) :: resto)
      else Option.map (fun c => e :: c) (updateFirst resto pista suspeito)

/-- Effect of `inserirNaHash` on the addressed bucket's chain: overwrite the
matching entry if one exists, else prepend a new entry whose key is the
first 127 bytes of the clue and whose value is the first 63 bytes of the
suspect. -/
def chainPut (chain : List HashEntry) (pista suspeito : List Nat) : List HashEntry :=
  match updateFirst chain pista suspeito with
  | some chain2 => chain2
  | none => (pista.take 127, suspeito.take 63) :: chain

/-- `inserirNaHash`: hashes the (untruncated) clue over the full bucket
count and rewrites that bucket's chain via `chainPut`. -/
def inserirNaHash (tabela : Table) (pista suspeito : List Nat) : Table :=
  fun i => if i = hash_string pista % 101 then chainPut (tabela i) pista suspeito
           else tabela i

/-- `encontrarSuspeito`: hashes the clue, scans the bucket's chain for an
exactly equal key, and returns the associated suspect (`none` = not-found,
the C NULL return). -/
def encontrarSuspeito (tabela : Table) (pista : List Nat) : Option (List Nat) :=
  Option.map (fun e => e.2)
    ((tabela (hash_string pista % 101)).find? (fun e => decide (e.1 = pista)))

/-- The table before any `inserirNaHash`: every bucket NULL. -/
def emptyTable : Table := fun _ => []

/-- A table built by an arbitrary sequence of `inserirNaHash` operations. -/
def montarTabela (ops : List (List Nat × List Nat)) : Table :=
  List.foldl (fun t op => inserirNaHash t op.1 op.2) emptyTable ops

/-- The set of distinct keys in one chain. -/
def keysFinset (ch : List HashEntry) : Finset (List Nat) :=
  (ch.map Prod.fst).toFinset

/-- Number of distinct keys stored in the table. -/
def keyCount (tabela : Table) : Nat :=
  ((Finset.range 101).biUnion (fun i => keysFinset (tabela i))).card

/-- Capacity invariant of a table: all keys fit in 127 bytes, all values in
63 bytes. -/
def tableBounds (t : Table) : Prop :=
  ∀ i, ∀ e ∈ t i, e.1.length ≤ 127 ∧ e.2.length ≤ 63

/-! ## The Room Map and the Exploration Engine (struct sala, explorarSalas) -/

/-- A room node; `vazio` is the NULL pointer. -/
inductive Sala : Type
  | vazio : Sala
  | sala : List Nat → List Nat → Sala → Sala → Sala
deriving DecidableEq

/-- `criarSala` merged with the child-link assignments done in `main`:
the name is truncated to 63 bytes, the clue (empty meaning none) to 127
bytes. -/
def criarSala (nome pista : List Nat) (esq dir : Sala) : Sala :=
  Sala.sala (nome.take 63) (if pista = [] then [] else pista.take 127) esq dir

/-- `explorarSalas`: the interactive loop. The input channel is modelled as
the list of command characters the player's successive lines yield
(`scanf(" %c")` reads one non-blank character per line and the rest of the
line is discarded); exhausting the list models end-of-input, on which
`scanf` fails and the loop breaks. On entering a room its clue (if any) is
inserted into the Clue Set; then one command is consumed:
e/E moves left when possible, d/D moves right when possible, s/S ends the
exploration, anything else re-prompts; a blocked or invalid command leaves
the current room unchanged. Returns the final Clue Set. -/
def explorarSalas : Sala → PistaTree → List Nat → PistaTree
  | Sala.vazio, pistas, _ => pistas
  | Sala.sala _ p _ _, pistas, [] => inserirPista pistas p
  | Sala.sala nome p esq dir, pistas, c :: resto =>
      if c = 101 ∨ c = 69 then
        match esq with
        | Sala.vazio =>
            explorarSalas (Sala.sala nome p esq dir) (inserirPista pistas p) resto
        | Sala.sala n2 p2 e2 d2 =>
            explorarSalas (Sala.sala n2 p2 e2 d2) (inserirPista pistas p) resto
      else if c = 100 ∨ c = 68 then
        match dir with
        | Sala.vazio =>
            explorarSalas (Sala.sala nome p esq dir) (inserirPista pistas p) resto
        | Sala.sala n2 p2 e2 d2 =>
            explorarSalas (Sala.sala n2 p2 e2 d2) (inserirPista pistas p) resto
      else if c = 115 ∨ c = 83 then
        inserirPista pistas p
      else
        explorarSalas (Sala.sala nome p esq dir) (inserirPista pistas p) resto

/-! ## The Verdict Evaluator (contarPistasPorSuspeitoRec, verificarSuspeitoFinal) -/

/-- In-order count of collected clues whose Suspect Index lookup returns
exactly the accused name; clues with no associated suspect add nothing. -/
def contarPistasPorSuspeitoRec : PistaTree → Table → List Nat → Nat
  | PistaTree.leaf, _, _ => 0
  | PistaTree.node esq p dir, tabela, alvo =>
      contarPistasPorSuspeitoRec esq tabela alvo
      + (match encontrarSuspeito tabela p with
         | some s => if s = alvo then 1 else 0
         | none => 0)
      + contarPistasPorSuspeitoRec dir tabela alvo

inductive Veredicto : Type
  | culpado : Veredicto
  | insuficiente : Veredicto
deriving DecidableEq

/-- The decision rule at the end of `verificarSuspeitoFinal`. -/
def veredictoFinal (cont : Nat) : Veredicto :=
  if 2 ≤ cont then Veredicto.culpado else Veredicto.insuficiente

/-- `strip_newline`: removes one trailing newline byte, if present. -/
def strip_newline (s : List Nat) : List Nat :=
  if s.getLast? = some 10 then s.dropLast else s

/-- `verificarSuspeitoFinal`: the accusation phase. The input is `none`
when `fgets` fails (unreadable input) and `some linha` for an input line
(trailing newline byte included when one was read); `fgets` keeps at most
63 bytes. An unreadable or (after stripping the newline) empty accusation
is rejected with no count and no verdict (`none`); otherwise the count and
the verdict are produced. -/
def verificarSuspeitoFinal (raizPistas : PistaTree) (tabela : Table)
    (entrada : Option (List Nat)) : Option (Nat × Veredicto) :=
  match entrada with
  | none => none
  | some linha =>
      let acusado := strip_newline (linha.take 63)
      if acusado = [] then none
      else some (contarPistasPorSuspeitoRec raizPistas tabela acusado,
                 veredictoFinal (contarPistasPorSuspeitoRec raizPistas tabela acusado))

/-! ## The fixed start-up data from `main` (byte lists of the C literals) -/

def pegadaSuja : List Nat := [80, 101, 103, 97, 100, 97, 32, 115, 117, 106, 97]

def perfumeCaro : List Nat :=
  [80, 101, 114, 102, 117, 109, 101, 32, 102, 101, 109, 105, 110, 105, 110,
   111, 32, 99, 97, 114, 111]

def livroRasgado : List Nat :=
  [76, 105, 118, 114, 111, 32, 114, 97, 115, 103, 97, 100, 111]

def copoEsmalte : List Nat :=
  [67, 111, 112, 111, 32, 99, 111, 109, 32, 102, 114, 97, 103, 109, 101,
   110, 116, 111, 32, 100, 101, 32, 101, 115, 109, 97, 108, 116, 101]

def filtroCigarro : List Nat :=
  [70, 105, 108, 116, 114, 111, 32, 100, 101, 32, 99, 105, 103, 97, 114,
   114, 111]

def luvaEncharcada : List Nat :=
  [76, 117, 118, 97, 32, 101, 110, 99, 104, 97, 114, 99, 97, 100, 97]

def carlos : List Nat := [67, 97, 114, 108, 111, 115]

def donaBeatriz : List Nat := [68, 111, 110, 97, 32, 66, 101, 97, 116, 114, 105, 122]

def professorOtavio : List Nat :=
  [80, 114, 111, 102, 101, 115, 115, 111, 114, 32, 79, 116, 195, 161, 118,
   105, 111]

def nomeHall : List Nat :=
  [72, 97, 108, 108, 32, 100, 101, 32, 69, 110, 116, 114, 97, 100, 97]

def nomeEstar : List Nat :=
  [83, 97, 108, 97, 32, 100, 101, 32, 69, 115, 116, 97, 114]

def nomeBiblioteca : List Nat :=
  [66, 105, 98, 108, 105, 111, 116, 101, 99, 97]

def nomeCozinha : List Nat := [67, 111, 122, 105, 110, 104, 97]

def nomeJardim : List Nat := [74, 97, 114, 100, 105, 109]

def nomePorao : List Nat := [80, 111, 114, 195, 163, 111]

/-- The fixed room map wired in `main`. -/
def cozinha : Sala := criarSala nomeCozinha copoEsmalte Sala.vazio Sala.vazio

def jardim : Sala := criarSala nomeJardim filtroCigarro Sala.vazio Sala.vazio

def estar : Sala := criarSala nomeEstar perfumeCaro cozinha jardim

def porao : Sala := criarSala nomePorao luvaEncharcada Sala.vazio Sala.vazio

def biblioteca : Sala := criarSala nomeBiblioteca livroRasgado Sala.vazio porao

def hall : Sala := criarSala nomeHall pegadaSuja estar biblioteca

/-- The fixed clue-to-suspect associations inserted in `main`, in order. -/
def tabelaInicial : Table :=
  inserirNaHash
    (inserirNaHash
      (inserirNaHash
        (inserirNaHash
          (inserirNaHash
            (inserirNaHash emptyTable pegadaSuja carlos)
            perfumeCaro donaBeatriz)
          livroRasgado professorOtavio)
        copoEsmalte donaBeatriz)
      filtroCigarro carlos)
    luvaEncharcada professorOtavio

/-- Spec-side definition of the accusation count (§4.5 of the spec):
the number of clues in the enumerated Clue Set whose Suspect Index lookup
returns exactly the accused name. Used to compare the code's recursive
counter against the spec's wording. -/
def contagemEspecificada (t : PistaTree) (tabela : Table) (alvo : List Nat) : Nat :=
  ((exibirPistas t).filter
    (fun p => decide (encontrarSuspeito tabela p = some alvo))).length

/-- The Clue Set produced by scenario A: commands e, e, s from the hall. -/
def pistasCenarioA : PistaTree := explorarSalas hall PistaTree.leaf [101, 101, 115]

/-- The clue stored in a room (empty list when the room is NULL). -/
def pistaDe : Sala → List Nat
  | Sala.vazio => []
  | Sala.sala _ p _ _ => p

theorem strcmp_self (a : List Nat) : strcmpList a a = Ordering.eq := by
  induction a with
  | nil => rfl
  | cons x xs ih => simp [strcmpList, ih]

theorem strcmp_eq_iff : ∀ a b : List Nat, strcmpList a b = Ordering.eq ↔ a = b
  | [], [] => by simp [strcmpList]
  | [], _ :: _ => by simp [strcmpList]
  | _ :: _, [] => by simp [strcmpList]
  | a :: as, b :: bs => by
      constructor
      · intro h
        by_cases h1 : a < b
        · simp [strcmpList, h1] at h
        · by_cases h2 : b < a
          · simp [strcmpList, h1, h2] at h
          · have hab : a = b := Nat.le_antisymm (Nat.not_lt.mp h2) (Nat.not_lt.mp h1)
            have hs : strcmpList as bs = Ordering.eq := by
              simpa [strcmpList, h1, h2] using h
            have := (strcmp_eq_iff as bs).mp hs
            simp [hab, this]
      · intro h
        cases h
        exact strcmp_self _

theorem strcmp_gt_iff : ∀ a b : List Nat,
    strcmpList a b = Ordering.gt ↔ strcmpList b a = Ordering.lt
  | [], [] => by simp [strcmpList]
  | [], _ :: _ => by simp [strcmpList]
  | _ :: _, [] => by simp [strcmpList]
  | a :: as, b :: bs => by
      rcases Nat.lt_trichotomy a b with h | h | h
      · simp [strcmpList, h, Nat.lt_asymm h]
      · cases h
        simp [strcmpList, Nat.lt_irrefl, strcmp_gt_iff as bs]
      · simp [strcmpList, h, Nat.lt_asymm h]

theorem strcmp_lt_trans : ∀ a b c : List Nat,
    strcmpList a b = Ordering.lt → strcmpList b c = Ordering.lt →
    strcmpList a c = Ordering.lt
  | [], [], _ => by intro h1 _; simp [strcmpList] at h1
  | [], _ :: _, [] => by intro _ h2; simp [strcmpList] at h2
  | [], _ :: _, _ :: _ => by intro _ _; simp [strcmpList]
  | _ :: _, [], _ => by intro h1 _; simp [strcmpList] at h1
  | _ :: _, _ :: _, [] => by intro _ h2; simp [strcmpList] at h2
  | a :: as, b :: bs, c :: cs => by
      intro h1 h2
      rcases Nat.lt_trichotomy a b with hab | hab | hab
      · rcases Nat.lt_trichotomy b c with hbc | hbc | hbc
        · have : a < c := Nat.lt_trans hab hbc
          simp [strcmpList, this]
        · cases hbc
          simp [strcmpList, hab]
        · simp [strcmpList, hbc, Nat.lt_asymm hbc] at h2
      · cases hab
        rcases Nat.lt_trichotomy a c with hac | hac | hac
        · simp [strcmpList, hac]
        · cases hac
          have h1' : strcmpList as bs = Ordering.lt := by
            simpa [strcmpList, Nat.lt_irrefl] using h1
          have h2' : strcmpList bs cs = Ordering.lt := by
            simpa [strcmpList, Nat.lt_irrefl] using h2
          simpa [strcmpList, Nat.lt_irrefl] using strcmp_lt_trans as bs cs h1' h2'
        · simp [strcmpList, hac, Nat.lt_asymm hac] at h2
      · simp [strcmpList, hab, Nat.lt_asymm hab] at h1

theorem strcmp_nil_right_ne_lt : ∀ a : List Nat, strcmpList a [] ≠ Ordering.lt
  | [] => by simp [strcmpList]
  | _ :: _ => by simp [strcmpList]

/-- Truncating the left argument preserves strict `strcmp`-below. -/
theorem strcmp_take_lt : ∀ (n : Nat) (a b : List Nat),
    strcmpList a b = Ordering.lt → strcmpList (a.take n) b = Ordering.lt
  | _, [], _ => by intro h; simpa using h
  | _, _ :: _, [] => by intro h; simp [strcmpList] at h
  | 0, _ :: _, _ :: _ => by intro _; simp [strcmpList]
  | n + 1, a :: as, b :: bs => by
      intro h
      rcases Nat.lt_trichotomy a b with hab | hab | hab
      · simp [strcmpList, hab]
      · cases hab
        have h' : strcmpList as bs = Ordering.lt := by
          simpa [strcmpList, Nat.lt_irrefl] using h
        simpa [strcmpList, Nat.lt_irrefl] using strcmp_take_lt n as bs h'
      · simp [strcmpList, hab, Nat.lt_asymm hab] at h

/-- Truncating the left argument of a strict `strcmp`-above comparison cannot
drop below the right argument, provided the right argument fits within the
truncation bound. -/
theorem strcmp_take_not_lt : ∀ (n : Nat) (a b : List Nat),
    strcmpList a b = Ordering.gt → b.length ≤ n →
    strcmpList (a.take n) b ≠ Ordering.lt
  | n, a, [] => by intro _ _; exact strcmp_nil_right_ne_lt _
  | _, [], _ :: _ => by intro h _; simp [strcmpList] at h
  | 0, _ :: _, _ :: _ => by intro _ hlen; simp at hlen
  | n + 1, a :: as, b :: bs => by
      intro h hlen
      rcases Nat.lt_trichotomy a b with hab | hab | hab
      · simp [strcmpList, hab, Nat.lt_asymm hab] at h
      · cases hab
        have h' : strcmpList as bs = Ordering.gt := by
          simpa [strcmpList, Nat.lt_irrefl] using h
        have hlen' : bs.length ≤ n := by simpa using hlen
        simpa [strcmpList, Nat.lt_irrefl] using strcmp_take_not_lt n as bs h' hlen'
      · simp [strcmpList, hab, Nat.lt_asymm hab]

theorem pistaLe_of_lt {a b : List Nat} (h : strcmpList a b = Ordering.lt) :
    pistaLe a b := by simp [pistaLe, h]

theorem pistaLe_refl (a : List Nat) : pistaLe a a := by
  simp [pistaLe, strcmp_self]

theorem lt_le_trans {a b c : List Nat} (h1 : strcmpList a b = Ordering.lt)
    (h2 : pistaLe b c) : pistaLe a c := by
  cases h3 : strcmpList b c with
  | eq => rw [(strcmp_eq_iff b c).mp h3] at h1; exact pistaLe_of_lt h1
  | lt => exact pistaLe_of_lt (strcmp_lt_trans a b c h1 h3)
  | gt => exact absurd h3 h2

theorem mem_exibir_inserir : ∀ (t : PistaTree) (p k : List Nat),
    k ∈ exibirPistas (inserirPista t p) →
    k ∈ exibirPistas t ∨ k = p.take 127 := by
  intro t p
  induction t with
  | leaf =>
      intro k hk
      cases p with
      | nil => exact Or.inl hk
      | cons c cs => right; simpa [inserirPista, exibirPistas] using hk
  | node esq q dir ihl ihr =>
      intro k hk
      cases p with
      | nil => exact Or.inl hk
      | cons c cs =>
        cases hcmp : strcmpList (c :: cs) q with
        | lt =>
            simp only [inserirPista, hcmp, exibirPistas, List.mem_append,
              List.mem_cons] at hk ⊢
            rcases hk with hk | hk
            · rcases ihl k hk with h | h
              · exact Or.inl (Or.inl h)
              · exact Or.inr h
            · exact Or.inl (Or.inr hk)
        | eq =>
            simp only [inserirPista, hcmp] at hk
            exact Or.inl hk
        | gt =>
            simp only [inserirPista, hcmp, exibirPistas, List.mem_append,
              List.mem_cons] at hk ⊢
            rcases hk with hk | hk | hk
            · exact Or.inl (Or.inl hk)
            · exact Or.inl (Or.inr (Or.inl hk))
            · rcases ihr k hk with h | h
              · exact Or.inl (Or.inr (Or.inr h))
              · exact Or.inr h

theorem inv_inserir (p : List Nat) : ∀ {t : PistaTree}, Inv t → Inv (inserirPista t p) := by
  intro t
  induction t with
  | leaf =>
      intro _
      cases p with
      | nil => exact Inv.leaf
      | cons c cs =>
        refine Inv.node Inv.leaf Inv.leaf ?_ ?_ ?_
        · simp
        · intro k hk; simp [exibirPistas] at hk
        · intro k hk; simp [exibirPistas] at hk
  | node esq q dir ihl ihr =>
      intro hinv
      cases hinv with
      | node hl hr hlen hbl hbr =>
        cases p with
        | nil => exact Inv.node hl hr hlen hbl hbr
        | cons c cs =>
          cases hcmp : strcmpList (c :: cs) q with
          | lt =>
              simp only [inserirPista, hcmp]
              refine Inv.node (ihl hl) hr hlen ?_ hbr
              intro k hk
              rcases mem_exibir_inserir esq (c :: cs) k hk with h | h
              · exact hbl k h
              · rw [h]; exact strcmp_take_lt 127 _ _ hcmp
          | eq =>
              simp only [inserirPista, hcmp]
              exact Inv.node hl hr hlen hbl hbr
          | gt =>
              simp only [inserirPista, hcmp]
              refine Inv.node hl (ihr hr) hlen hbl ?_
              intro k hk
              rcases mem_exibir_inserir dir (c :: cs) k hk with h | h
              · exact hbr k h
              · rw [h]
                intro hgt
                exact strcmp_take_not_lt 127 (c :: cs) q hcmp hlen
                  ((strcmp_gt_iff q _).mp hgt)

theorem inv_fold (ps : List (List Nat)) :
    ∀ t : PistaTree, Inv t → Inv (List.foldl inserirPista t ps) := by
  induction ps with
  | nil => intro t h; exact h
  | cons p ps ih => intro t h; exact ih _ (inv_inserir p h)

theorem inv_sorted : ∀ {t : PistaTree}, Inv t →
    List.Sorted pistaLe (exibirPistas t) := by
  intro t
  induction t with
  | leaf => intro _; simp [exibirPistas]
  | node esq q dir ihl ihr =>
      intro hinv
      cases hinv with
      | node hl hr hlen hbl hbr =>
        show List.Pairwise pistaLe (exibirPistas esq ++ q :: exibirPistas dir)
        rw [List.pairwise_append]
        refine ⟨ihl hl, ?_, ?_⟩
        · rw [List.pairwise_cons]
          exact ⟨fun b hb => hbr b hb, ihr hr⟩
        · intro a ha b hb
          rcases List.mem_cons.mp hb with hb | hb
          · rw [hb]; exact pistaLe_of_lt (hbl a ha)
          · exact lt_le_trans (hbl a ha) (hbr b hb)

theorem inv_keys_short : ∀ {t : PistaTree}, Inv t →
    ∀ k ∈ exibirPistas t, k.length ≤ 127 := by
  intro t
  induction t with
  | leaf => intro _ k hk; simp [exibirPistas] at hk
  | node esq q dir ihl ihr =>
      intro hinv k hk
      cases hinv with
      | node hl hr hlen hbl hbr =>
        rw [exibirPistas] at hk
        rcases List.mem_append.mp hk with h | h
        · exact ihl hl k h
        · rcases List.mem_cons.mp h with h | h
          · rw [h]; exact hlen
          · exact ihr hr k h

theorem exibir_inserir_superset : ∀ (t : PistaTree) (p k : List Nat),
    k ∈ exibirPistas t → k ∈ exibirPistas (inserirPista t p) := by
  intro t p
  induction t with
  | leaf => intro k hk; simp [exibirPistas] at hk
  | node esq q dir ihl ihr =>
      intro k hk
      cases p with
      | nil => exact hk
      | cons c cs =>
        rw [exibirPistas] at hk
        cases hcmp : strcmpList (c :: cs) q with
        | lt =>
            simp only [inserirPista, hcmp, exibirPistas, List.mem_append, List.mem_cons]
            rcases List.mem_append.mp hk with h | h
            · exact Or.inl (ihl k h)
            · rcases List.mem_cons.mp h with h | h
              · exact Or.inr (Or.inl h)
              · exact Or.inr (Or.inr h)
        | eq => simpa only [inserirPista, hcmp, exibirPistas] using hk
        | gt =>
            simp only [inserirPista, hcmp, exibirPistas, List.mem_append, List.mem_cons]
            rcases List.mem_append.mp hk with h | h
            · exact Or.inl h
            · rcases List.mem_cons.mp h with h | h
              · exact Or.inr (Or.inl h)
              · exact Or.inr (Or.inr (ihr k h))

theorem mem_inserir_self : ∀ (t : PistaTree) (p : List Nat),
    p.length ≤ 127 → p ≠ [] → p ∈ exibirPistas (inserirPista t p) := by
  intro t p hlen hne
  induction t with
  | leaf =>
      cases p with
      | nil => exact absurd rfl hne
      | cons c cs =>
        simp [inserirPista, exibirPistas, List.take_of_length_le hlen]
  | node esq q dir ihl ihr =>
      cases p with
      | nil => exact absurd rfl hne
      | cons c cs =>
        cases hcmp : strcmpList (c :: cs) q with
        | lt =>
            simp only [inserirPista, hcmp, exibirPistas, List.mem_append]
            exact Or.inl ihl
        | eq =>
            have := (strcmp_eq_iff _ _).mp hcmp
            simp only [inserirPista, hcmp, exibirPistas, List.mem_append, List.mem_cons]
            exact Or.inr (Or.inl this)
        | gt =>
            simp only [inserirPista, hcmp, exibirPistas, List.mem_append, List.mem_cons]
            exact Or.inr (Or.inr ihr)

/-- Inserting a clue that fits in the clue buffer twice is the same as
inserting it once. -/
theorem inserir_idem : ∀ (t : PistaTree) (p : List Nat), p.length ≤ 127 →
    inserirPista (inserirPista t p) p = inserirPista t p := by
  intro t p hlen
  induction t with
  | leaf =>
      cases p with
      | nil => rfl
      | cons c cs =>
        have ht : (c :: cs).take 127 = c :: cs := List.take_of_length_le hlen
        simp [inserirPista, ht, strcmp_self]
  | node esq q dir ihl ihr =>
      cases p with
      | nil => rfl
      | cons c cs =>
        cases hcmp : strcmpList (c :: cs) q with
        | lt => simp [inserirPista, hcmp, ihl]
        | eq => simp [inserirPista, hcmp]
        | gt => simp [inserirPista, hcmp, ihr]

/-- On a well-formed Clue Set, inserting a clue text that is already stored
in the tree leaves the tree unchanged. -/
theorem inserir_mem_noop : ∀ {t : PistaTree}, Inv t →
    ∀ {p : List Nat}, p ∈ exibirPistas t → inserirPista t p = t := by
  intro t
  induction t with
  | leaf => intro _ p hp; simp [exibirPistas] at hp
  | node esq q dir ihl ihr =>
      intro hinv p hp
      cases hinv with
      | node hl hr hlen hbl hbr =>
        cases p with
        | nil => rfl
        | cons c cs =>
          rw [exibirPistas] at hp
          cases hcmp : strcmpList (c :: cs) q with
          | lt =>
              have hmem : (c :: cs) ∈ exibirPistas esq := by
                rcases List.mem_append.mp hp with h | h
                · exact h
                · rcases List.mem_cons.mp h with h | h
                  · exact absurd ((strcmp_eq_iff (c :: cs) q).mpr h) (by simp [hcmp])
                  · exact absurd ((strcmp_gt_iff q (c :: cs)).mpr hcmp) (hbr _ h)
              simp [inserirPista, hcmp, ihl hl hmem]
          | eq => simp [inserirPista, hcmp]
          | gt =>
              have hmem : (c :: cs) ∈ exibirPistas dir := by
                rcases List.mem_append.mp hp with h | h
                · have := hbl _ h
                  rw [this] at hcmp
                  cases hcmp
                · rcases List.mem_cons.mp h with h | h
                  · exact absurd ((strcmp_eq_iff (c :: cs) q).mpr h) (by simp [hcmp])
                  · exact h
              simp [inserirPista, hcmp, ihr hr hmem]

theorem sinv_inserir (p : List Nat) (hlen : p.length ≤ 127) :
    ∀ {t : PistaTree}, SInv t → SInv (inserirPista t p) := by
  intro t
  induction t with
  | leaf =>
      intro _
      cases p with
      | nil => exact SInv.leaf
      | cons c cs =>
        refine SInv.node SInv.leaf SInv.leaf ?_ ?_ <;>
          (intro k hk; simp [exibirPistas] at hk)
  | node esq q dir ihl ihr =>
      intro hinv
      cases hinv with
      | node hl hr hbl hbr =>
        cases p with
        | nil => exact SInv.node hl hr hbl hbr
        | cons c cs =>
          have ht : (c :: cs).take 127 = c :: cs := List.take_of_length_le hlen
          cases hcmp : strcmpList (c :: cs) q with
          | lt =>
              simp only [inserirPista, hcmp]
              refine SInv.node (ihl hl) hr ?_ hbr
              intro k hk
              rcases mem_exibir_inserir esq (c :: cs) k hk with h | h
              · exact hbl k h
              · rw [h, ht]; exact hcmp
          | eq =>
              simp only [inserirPista, hcmp]
              exact SInv.node hl hr hbl hbr
          | gt =>
              simp only [inserirPista, hcmp]
              refine SInv.node hl (ihr hr) hbl ?_
              intro k hk
              rcases mem_exibir_inserir dir (c :: cs) k hk with h | h
              · exact hbr k h
              · rw [h, ht]; exact (strcmp_gt_iff _ _).mp hcmp

theorem sinv_fold (ps : List (List Nat)) (hps : ∀ p ∈ ps, p.length ≤ 127) :
    ∀ t : PistaTree, SInv t → SInv (List.foldl inserirPista t ps) := by
  induction ps with
  | nil => intro t h; exact h
  | cons p ps ih =>
      intro t h
      exact ih (fun x hx => hps x (List.mem_cons_of_mem _ hx)) _
        (sinv_inserir p (hps p (List.mem_cons_self _ _)) h)

theorem sinv_pairwise : ∀ {t : PistaTree}, SInv t →
    List.Pairwise (fun a b => strcmpList a b = Ordering.lt) (exibirPistas t) := by
  intro t
  induction t with
  | leaf => intro _; simp [exibirPistas]
  | node esq q dir ihl ihr =>
      intro hinv
      cases hinv with
      | node hl hr hbl hbr =>
        rw [exibirPistas, List.pairwise_append]
        refine ⟨ihl hl, ?_, ?_⟩
        · rw [List.pairwise_cons]
          exact ⟨fun b hb => hbr b hb, ihr hr⟩
        · intro a ha b hb
          rcases List.mem_cons.mp hb with hb | hb
          · rw [hb]; exact hbl a ha
          · exact strcmp_lt_trans a q b (hbl a ha) (hbr b hb)

theorem sinv_nodup {t : PistaTree} (h : SInv t) : (exibirPistas t).Nodup := by
  refine (sinv_pairwise h).imp ?_
  intro a b hab
  intro hEq
  rw [hEq, strcmp_self] at hab
  cases hab

theorem updateFirst_none_iff : ∀ (ch : List HashEntry) (p s : List Nat),
    updateFirst ch p s = none ↔ ∀ e ∈ ch, e.1 ≠ p := by
  intro ch p s
  induction ch with
  | nil => simp [updateFirst]
  | cons e resto ih =>
      by_cases he : e.1 = p
      · simp [updateFirst, he]
      · simp [updateFirst, he, ih]

theorem updateFirst_some_keys : ∀ (ch : List HashEntry) (p s : List Nat)
    (c : List HashEntry), updateFirst ch p s = some c →
    c.map Prod.fst = ch.map Prod.fst := by
  intro ch p s
  induction ch with
  | nil => intro c hc; simp [updateFirst] at hc
  | cons e resto ih =>
      intro c hc
      by_cases he : e.1 = p
      · simp only [updateFirst, if_pos he, Option.some.injEq] at hc
        rw [← hc]; simp
      · simp only [updateFirst, if_neg he] at hc
        cases hu : updateFirst resto p s with
        | none => rw [hu] at hc; simp at hc
        | some c0 =>
            rw [hu] at hc
            simp only [Option.map_some', Option.some.injEq] at hc
            rw [← hc]
            simp [ih c0 hu]

theorem updateFirst_mem : ∀ (ch : List HashEntry) (p s : List Nat)
    (c : List HashEntry), updateFirst ch p s = some c →
    ∀ e2 ∈ c, e2 ∈ ch ∨ ∃ e ∈ ch, e2 = (e.1, s.take 63) := by
  intro ch p s
  induction ch with
  | nil => intro c hc; simp [updateFirst] at hc
  | cons e resto ih =>
      intro c hc e2 he2
      by_cases he : e.1 = p
      · simp only [updateFirst, if_pos he, Option.some.injEq] at hc
        rw [← hc] at he2
        rcases List.mem_cons.mp he2 with h | h
        · exact Or.inr ⟨e, List.mem_cons_self _ _, h⟩
        · exact Or.inl (List.mem_cons_of_mem _ h)
      · simp only [updateFirst, if_neg he] at hc
        cases hu : updateFirst resto p s with
        | none => rw [hu] at hc; simp at hc
        | some c0 =>
            rw [hu] at hc
            simp only [Option.map_some', Option.some.injEq] at hc
            rw [← hc] at he2
            rcases List.mem_cons.mp he2 with h | h
            · exact Or.inl (by rw [h]; exact List.mem_cons_self _ _)
            · rcases ih c0 hu e2 h with h2 | ⟨e3, he3, he3'⟩
              · exact Or.inl (List.mem_cons_of_mem _ h2)
              · exact Or.inr ⟨e3, List.mem_cons_of_mem _ he3, he3'⟩

theorem updateFirst_find : ∀ (ch : List HashEntry) (p s : List Nat)
    (c : List HashEntry), updateFirst ch p s = some c →
    c.find? (fun e => decide (e.1 = p)) = some (p, s.take 63) := by
  intro ch p s
  induction ch with
  | nil => intro c hc; simp [updateFirst] at hc
  | cons e resto ih =>
      intro c hc
      by_cases he : e.1 = p
      · simp only [updateFirst, if_pos he, Option.some.injEq] at hc
        rw [← hc, he]
        simp [List.find?]
      · simp only [updateFirst, if_neg he] at hc
        cases hu : updateFirst resto p s with
        | none => rw [hu] at hc; simp at hc
        | some c0 =>
            rw [hu] at hc
            simp only [Option.map_some', Option.some.injEq] at hc
            rw [← hc]
            rw [List.find?_cons_of_neg _ (by simp [he])]
            exact ih c0 hu

theorem find?_chainPut (ch : List HashEntry) (p s : List Nat)
    (hp : p.length ≤ 127) :
    (chainPut ch p s).find? (fun e => decide (e.1 = p)) = some (p, s.take 63) := by
  unfold chainPut
  cases hu : updateFirst ch p s with
  | some c => exact updateFirst_find ch p s c hu
  | none =>
      rw [List.take_of_length_le hp]
      simp [List.find?]

/-- Looking up a clue that fits in the key buffer right after inserting it
yields the suspect value truncated to 63 bytes. -/
theorem encontrar_inserir (t : Table) (p s : List Nat) (hp : p.length ≤ 127) :
    encontrarSuspeito (inserirNaHash t p s) p = some (s.take 63) := by
  unfold encontrarSuspeito inserirNaHash
  simp [find?_chainPut _ _ _ hp]

theorem keysFinset_chainPut_chainPut (ch : List HashEntry) (p A B : List Nat) :
    keysFinset (chainPut (chainPut ch p A) p B) = keysFinset (chainPut ch p A) := by
  cases hu : updateFirst ch p A with
  | some c =>
      have hc : chainPut ch p A = c := by unfold chainPut; rw [hu]
      have hfind := updateFirst_find ch p A c hu
      have hmem : (p, A.take 63) ∈ c := List.mem_of_find?_eq_some hfind
      have hne : updateFirst c p B ≠ none := by
        intro hnone
        exact ((updateFirst_none_iff c p B).mp hnone) (p, A.take 63) hmem rfl
      cases hu2 : updateFirst c p B with
      | none => exact absurd hu2 hne
      | some c2 =>
          have hc2 : chainPut c p B = c2 := by unfold chainPut; rw [hu2]
          rw [hc, hc2]
          unfold keysFinset
          rw [updateFirst_some_keys c p B c2 hu2]
  | none =>
      have hc : chainPut ch p A = (p.take 127, A.take 63) :: ch := by
        unfold chainPut; rw [hu]
      rw [hc]
      by_cases hp : p.take 127 = p
      · have : updateFirst ((p.take 127, A.take 63) :: ch) p B
            = some ((p.take 127, B.take 63) :: ch) := by
          simp [updateFirst, hp]
        unfold chainPut
        rw [this]
        unfold keysFinset
        simp
      · have hrest : updateFirst ch p B = none := by
          rw [updateFirst_none_iff]
          exact (updateFirst_none_iff ch p A).mp hu
        have : updateFirst ((p.take 127, A.take 63) :: ch) p B = none := by
          simp [updateFirst, hp, hrest]
        unfold chainPut
        rw [this]
        unfold keysFinset
        simp [Finset.insert_idem]

/-- Re-inserting the same clue key never changes the set of distinct keys. -/
theorem keyCount_inserir_twice (t : Table) (p A B : List Nat) :
    keyCount (inserirNaHash (inserirNaHash t p A) p B)
      = keyCount (inserirNaHash t p A) := by
  unfold keyCount
  apply congrArg Finset.card
  apply Finset.biUnion_congr rfl
  intro i _
  unfold inserirNaHash
  by_cases hi : i = hash_string p % 101
  · simp only [if_pos hi]
    exact keysFinset_chainPut_chainPut (t i) p A B
  · simp only [if_neg hi]

/-- Every entry in a bucket rewritten by `chainPut` respects the buffer
capacities, provided the old entries do. -/
theorem chainPut_entry_bounds (ch : List HashEntry) (p s : List Nat)
    (hch : ∀ e ∈ ch, e.1.length ≤ 127 ∧ e.2.length ≤ 63) :
    ∀ e2 ∈ chainPut ch p s, e2.1.length ≤ 127 ∧ e2.2.length ≤ 63 := by
  intro e2 he2
  unfold chainPut at he2
  cases hu : updateFirst ch p s with
  | some c =>
      rw [hu] at he2
      rcases updateFirst_mem ch p s c hu e2 he2 with h | ⟨e, he, he'⟩
      · exact hch e2 h
      · rw [he']
        refine ⟨(hch e he).1, ?_⟩
        simp
  | none =>
      rw [hu] at he2
      rcases List.mem_cons.mp he2 with h | h
      · rw [h]
        constructor
        · simp
        · simp
      · exact hch e2 h

theorem tableBounds_inserir {t : Table} (ht : tableBounds t) (p s : List Nat) :
    tableBounds (inserirNaHash t p s) := by
  intro i e he
  unfold inserirNaHash at he
  by_cases hi : i = hash_string p % 101
  · rw [if_pos hi] at he
    exact chainPut_entry_bounds (t i) p s (ht i) e he
  · rw [if_neg hi] at he
    exact ht i e he

theorem tableBounds_montar (ops : List (List Nat × List Nat)) :
    tableBounds (montarTabela ops) := by
  have h : ∀ (ops : List (List Nat × List Nat)) (t : Table), tableBounds t →
      tableBounds (List.foldl (fun t2 op => inserirNaHash t2 op.1 op.2) t ops) := by
    intro ops
    induction ops with
    | nil => intro t ht; exact ht
    | cons op ops ih => intro t ht; exact ih _ (tableBounds_inserir ht op.1 op.2)
  exact h ops emptyTable (by intro i e he; simp [emptyTable] at he)

/-- Looking up a clue of 128 bytes or more right after inserting it fails:
the stored key was truncated to 127 bytes. -/
theorem encontrar_long_none {t : Table} (ht : tableBounds t) (p s : List Nat)
    (hp : 128 ≤ p.length) :
    encontrarSuspeito (inserirNaHash t p s) p = none := by
  unfold encontrarSuspeito inserirNaHash
  rw [if_pos rfl]
  rw [Option.map_eq_none']
  rw [List.find?_eq_none]
  intro e he
  have hb := chainPut_entry_bounds (t (hash_string p % 101)) p s
    (ht (hash_string p % 101)) e he
  intro hEq
  have : e.1 = p := of_decide_eq_true hEq
  rw [this] at hb
  omega

theorem fold_preserves_mem (ps : List (List Nat)) :
    ∀ (t : PistaTree) (k : List Nat), k ∈ exibirPistas t →
    k ∈ exibirPistas (List.foldl inserirPista t ps) := by
  induction ps with
  | nil => intro t k hk; exact hk
  | cons q ps ih =>
      intro t k hk
      exact ih _ k (exibir_inserir_superset t q k hk)

theorem mem_fold_of_mem (ps : List (List Nat)) :
    ∀ (t : PistaTree) (p : List Nat), p ∈ ps → p.length ≤ 127 → p ≠ [] →
    p ∈ exibirPistas (List.foldl inserirPista t ps) := by
  induction ps with
  | nil => intro t p hp; simp at hp
  | cons q ps ih =>
      intro t p hp hlen hne
      rcases List.mem_cons.mp hp with h | h
      · subst h
        exact fold_preserves_mem ps _ _ (mem_inserir_self t p hlen hne)
      · exact ih _ p h hlen hne

theorem contar_eq_filter (tabela : Table) (alvo : List Nat) : ∀ t : PistaTree,
    contarPistasPorSuspeitoRec t tabela alvo = contagemEspecificada t tabela alvo := by
  intro t
  induction t with
  | leaf => rfl
  | node esq p dir ihl ihr =>
      unfold contagemEspecificada at ihl ihr ⊢
      simp only [contarPistasPorSuspeitoRec, exibirPistas, List.filter_append,
        List.length_append, ihl, ihr]
      cases h : encontrarSuspeito tabela p with
      | none => simp [List.filter_cons, h]
      | some s =>
          by_cases hs : s = alvo
          · simp [List.filter_cons, h, hs]
            omega
          · simp [List.filter_cons, h, hs]

theorem veredicto_iff (cont : Nat) :
    (veredictoFinal cont = Veredicto.culpado ↔ 2 ≤ cont)
    ∧ (veredictoFinal cont = Veredicto.insuficiente ↔ cont < 2) := by
  unfold veredictoFinal
  by_cases h : 2 ≤ cont
  all_goals simp [h]
  all_goals omega

/-- C1: for every final Clue Set, Suspect Index and non-empty accused name,
the count computed by the Verdict Evaluator equals the number of clues in
the Clue Set whose Suspect Index lookup returns exactly the accused name
(not-found lookups contribute nothing), and the verdict is guilty iff
count >= 2, insufficient otherwise. -/
theorem c1_contagem_e_veredicto (t : PistaTree) (tabela : Table)
    (acusado : List Nat) (_hne : acusado ≠ []) :
    contarPistasPorSuspeitoRec t tabela acusado = contagemEspecificada t tabela acusado
    ∧ (veredictoFinal (contarPistasPorSuspeitoRec t tabela acusado) = Veredicto.culpado
        ↔ 2 ≤ contarPistasPorSuspeitoRec t tabela acusado)
    ∧ (veredictoFinal (contarPistasPorSuspeitoRec t tabela acusado) = Veredicto.insuficiente
        ↔ contarPistasPorSuspeitoRec t tabela acusado < 2) :=
  ⟨contar_eq_filter tabela acusado t,
   (veredicto_iff _).1, (veredicto_iff _).2⟩

theorem c1_witness :
    contarPistasPorSuspeitoRec pistasCenarioA tabelaInicial donaBeatriz
      = contagemEspecificada pistasCenarioA tabelaInicial donaBeatriz
    ∧ (veredictoFinal (contarPistasPorSuspeitoRec pistasCenarioA tabelaInicial donaBeatriz)
        = Veredicto.culpado
        ↔ 2 ≤ contarPistasPorSuspeitoRec pistasCenarioA tabelaInicial donaBeatriz)
    ∧ (veredictoFinal (contarPistasPorSuspeitoRec pistasCenarioA tabelaInicial donaBeatriz)
        = Veredicto.insuficiente
        ↔ contarPistasPorSuspeitoRec pistasCenarioA tabelaInicial donaBeatriz < 2) :=
  c1_contagem_e_veredicto pistasCenarioA tabelaInicial donaBeatriz (by decide)

/-- C2 fails as stated: inserting a 127-byte clue and then the 128-byte
clue extending it makes the enumeration print the same text twice, and the
128-byte inserted text never appears. -/
theorem c2_counterexample :
    ¬ ((exibirPistas (List.foldl inserirPista PistaTree.leaf
          [List.replicate 127 97, List.replicate 128 97])).Nodup
      ∧ ∀ p ∈ [List.replicate 127 97, List.replicate 128 97], p ≠ [] →
          p ∈ exibirPistas (List.foldl inserirPista PistaTree.leaf
            [List.replicate 127 97, List.replicate 128 97])) := by
  decide

/-- C2 amended: for every sequence of insertions whose clue strings fit in
the 127-byte clue buffer, the enumeration has no repeated clue text and
contains every distinct non-empty inserted clue text at least once. -/
theorem c2_amended (ps : List (List Nat)) (hlen : ∀ p ∈ ps, p.length ≤ 127) :
    (exibirPistas (List.foldl inserirPista PistaTree.leaf ps)).Nodup
    ∧ ∀ p ∈ ps, p ≠ [] →
        p ∈ exibirPistas (List.foldl inserirPista PistaTree.leaf ps) :=
  ⟨sinv_nodup (sinv_fold ps hlen PistaTree.leaf SInv.leaf),
   fun p hp hne => mem_fold_of_mem ps PistaTree.leaf p hp (hlen p hp) hne⟩

theorem c2_witness :
    (exibirPistas (List.foldl inserirPista PistaTree.leaf [[65]])).Nodup
    ∧ ∀ p ∈ [[65]], p ≠ ([] : List Nat) →
        p ∈ exibirPistas (List.foldl inserirPista PistaTree.leaf [[65]]) :=
  c2_amended [[65]] (by decide)

/-- C3: the enumeration of every Clue Set reachable by insertions is
non-decreasing in the byte-wise lexicographic order. (Enumeration is a
pure read of the tree in this model, so it trivially cannot mutate it.) -/
theorem c3_ordenacao (ps : List (List Nat)) :
    List.Sorted pistaLe (exibirPistas (List.foldl inserirPista PistaTree.leaf ps)) :=
  inv_sorted (inv_fold ps PistaTree.leaf Inv.leaf)

set_option maxRecDepth 8192 in
/-- C4 fails as stated: after put(clue, A), put(clue, B), get(clue) returns
B truncated to 63 bytes, not B, when B is 64 bytes or longer; and when the
clue is 128 bytes or longer, get(clue) returns not-found. -/
theorem c4_counterexample :
    ¬ (encontrarSuspeito (inserirNaHash (inserirNaHash emptyTable [65] [66]) [65]
          (List.replicate 64 67)) [65] = some (List.replicate 64 67))
    ∧ ¬ (encontrarSuspeito
          (inserirNaHash (inserirNaHash emptyTable (List.replicate 128 65) [66])
            (List.replicate 128 65) [67]) (List.replicate 128 65) = some [67]) := by
  decide

/-- C4 amended: when the clue fits the 127-byte key buffer and B fits the
63-byte value buffer, put(clue, A) then put(clue, B) leaves
get(clue) = B; the number of distinct keys is unchanged by the second put
for all arguments. -/
theorem c4_amended (t : Table) (clue A B : List Nat) :
    (clue.length ≤ 127 → B.length ≤ 63 →
      encontrarSuspeito (inserirNaHash (inserirNaHash t clue A) clue B) clue = some B)
    ∧ keyCount (inserirNaHash (inserirNaHash t clue A) clue B)
        = keyCount (inserirNaHash t clue A) := by
  constructor
  · intro h1 h2
    rw [encontrar_inserir _ clue B h1, List.take_of_length_le h2]
  · exact keyCount_inserir_twice t clue A B

theorem c4_witness :
    encontrarSuspeito (inserirNaHash (inserirNaHash emptyTable [65] [66]) [65] [67]) [65]
      = some [67]
    ∧ keyCount (inserirNaHash (inserirNaHash emptyTable [65] [66]) [65] [67])
        = keyCount (inserirNaHash emptyTable [65] [66]) :=
  ⟨(c4_amended emptyTable [65] [66] [67]).1 (by decide) (by decide),
   (c4_amended emptyTable [65] [66] [67]).2⟩

/-- C5 fails as stated on the enumeration order: the system does not
enumerate the scenario-A Clue Set as Pegada suja, Perfume feminino caro,
Copo com fragmento de esmalte. -/
theorem c5_counterexample :
    exibirPistas pistasCenarioA ≠ [pegadaSuja, perfumeCaro, copoEsmalte] := by
  decide

/-- C5 amended: commands left, left, quit yield the Clue Set
{Pegada suja, Perfume feminino caro, Copo com fragmento de esmalte},
enumerated in its actual alphabetical order Copo com fragmento de esmalte,
Pegada suja, Perfume feminino caro; accusing Dona Beatriz yields count 2
and the guilty verdict. -/
theorem c5_amended :
    exibirPistas pistasCenarioA = [copoEsmalte, pegadaSuja, perfumeCaro]
    ∧ verificarSuspeitoFinal pistasCenarioA tabelaInicial (some (donaBeatriz ++ [10]))
        = some (2, Veredicto.culpado) := by
  constructor
  · decide
  · decide

/-- C6: inserting a clue already present in a reachable Clue Set is a
no-op, and re-inserting the clue of any room built by `criarSala` (as the
exploration loop does on every visit) leaves the Clue Set unchanged after
the first insertion. -/
theorem c6_noop (ps : List (List Nat)) (p : List Nat)
    (hmem : p ∈ exibirPistas (List.foldl inserirPista PistaTree.leaf ps))
    (nome pista : List Nat) (esq dir : Sala) (P : PistaTree) :
    inserirPista (List.foldl inserirPista PistaTree.leaf ps) p
      = List.foldl inserirPista PistaTree.leaf ps
    ∧ inserirPista (inserirPista P (pistaDe (criarSala nome pista esq dir)))
        (pistaDe (criarSala nome pista esq dir))
      = inserirPista P (pistaDe (criarSala nome pista esq dir)) := by
  constructor
  · exact inserir_mem_noop (inv_fold ps PistaTree.leaf Inv.leaf) hmem
  · apply inserir_idem
    simp only [criarSala, pistaDe]
    split
    · simp
    · simp

theorem c6_witness :
    inserirPista (List.foldl inserirPista PistaTree.leaf [[65]]) [65]
      = List.foldl inserirPista PistaTree.leaf [[65]]
    ∧ inserirPista
        (inserirPista PistaTree.leaf (pistaDe (criarSala [] [66] Sala.vazio Sala.vazio)))
        (pistaDe (criarSala [] [66] Sala.vazio Sala.vazio))
      = inserirPista PistaTree.leaf (pistaDe (criarSala [] [66] Sala.vazio Sala.vazio)) :=
  c6_noop [[65]] [65] (by decide) [] [66] Sala.vazio Sala.vazio PistaTree.leaf

theorem explorar_congr (nome p : List Nat) (esq dir : Sala) (A B : PistaTree)
    (ent : List Nat) (h : inserirPista A p = inserirPista B p) :
    explorarSalas (Sala.sala nome p esq dir) A ent
      = explorarSalas (Sala.sala nome p esq dir) B ent := by
  cases ent with
  | nil => simp only [explorarSalas]; rw [h]
  | cons c resto => simp only [explorarSalas]; rw [h]

theorem explorar_blocked (nome pp : List Nat) (viz : Sala) (P : PistaTree)
    (resto : List Nat) (hlen : pp.length ≤ 127) :
    explorarSalas (Sala.sala nome pp Sala.vazio viz) P (101 :: resto)
      = explorarSalas (Sala.sala nome pp Sala.vazio viz) P resto
    ∧ explorarSalas (Sala.sala nome pp viz Sala.vazio) P (100 :: resto)
      = explorarSalas (Sala.sala nome pp viz Sala.vazio) P resto := by
  constructor
  · have step : explorarSalas (Sala.sala nome pp Sala.vazio viz) P (101 :: resto)
        = explorarSalas (Sala.sala nome pp Sala.vazio viz) (inserirPista P pp) resto := by
      simp [explorarSalas]
    rw [step]
    exact explorar_congr nome pp Sala.vazio viz _ P resto (inserir_idem P pp hlen)
  · have step : explorarSalas (Sala.sala nome pp viz Sala.vazio) P (100 :: resto)
        = explorarSalas (Sala.sala nome pp viz Sala.vazio) (inserirPista P pp) resto := by
      simp [explorarSalas]
    rw [step]
    exact explorar_congr nome pp viz Sala.vazio _ P resto (inserir_idem P pp hlen)

/-- C7: issuing left in a room with no left child (resp. right with no
right child) leaves the engine in the same room with the Clue Set
unchanged, continuing with the rest of the input (re-prompt). -/
theorem c7_caminho_bloqueado (nome pista : List Nat) (viz : Sala) (P : PistaTree)
    (resto : List Nat) :
    explorarSalas (criarSala nome pista Sala.vazio viz) P (101 :: resto)
      = explorarSalas (criarSala nome pista Sala.vazio viz) P resto
    ∧ explorarSalas (criarSala nome pista viz Sala.vazio) P (100 :: resto)
      = explorarSalas (criarSala nome pista viz Sala.vazio) P resto := by
  unfold criarSala
  apply explorar_blocked
  split
  · simp
  · simp

/-- C8: end of input on the command channel behaves exactly as an explicit
quit command: the exploration ends with the same Clue Set. -/
theorem c8_fim_entrada (r : Sala) (P : PistaTree) :
    explorarSalas r P [] = explorarSalas r P [115] := by
  cases r <;> simp [explorarSalas]

/-- C9: an unreadable accusation, or one empty after stripping the
trailing newline, is rejected: no count and no verdict are produced (the
evaluator returns and the program goes on to terminate normally). -/
theorem c9_acusacao_invalida (t : PistaTree) (tabela : Table) (linha : List Nat)
    (h : strip_newline (linha.take 63) = []) :
    verificarSuspeitoFinal t tabela none = none
    ∧ verificarSuspeitoFinal t tabela (some linha) = none := by
  exact ⟨rfl, by simp [verificarSuspeitoFinal, h]⟩

theorem c9_witness :
    verificarSuspeitoFinal PistaTree.leaf emptyTable none = none
    ∧ verificarSuspeitoFinal PistaTree.leaf emptyTable (some [10]) = none :=
  c9_acusacao_invalida PistaTree.leaf emptyTable [10] (by decide)

set_option maxRecDepth 8192 in
/-- C10 fails as stated: the 128-byte text and its 127-byte truncation are
distinct texts agreeing on their first 127 bytes, yet the Clue Set does
not treat them as the same clue (inserting the long text while its
truncation is present duplicates the stored text instead of being a
no-op), and the Suspect Index files the long text's truncated key under
the long text's hash bucket, where a lookup of the truncation misses it. -/
theorem c10_counterexample :
    (List.replicate 127 65 ++ [66] : List Nat) ≠ List.replicate 127 65
    ∧ (List.replicate 127 65 ++ [66] : List Nat).take 127
        = (List.replicate 127 65 : List Nat).take 127
    ∧ exibirPistas (inserirPista (inserirPista PistaTree.leaf (List.replicate 127 65))
        (List.replicate 127 65 ++ [66]))
      = [List.replicate 127 65, List.replicate 127 65]
    ∧ encontrarSuspeito (inserirNaHash emptyTable (List.replicate 127 65 ++ [66]) [67])
        (List.replicate 127 65) = none := by
  decide

/-- C10 amended: all strings at the public interface are silently
truncated (clue keys to 127 bytes, suspect values to 63 bytes): every key
stored in a reachable Clue Set or Suspect Index has at most 127 bytes,
every stored suspect value at most 63 bytes, and for a clue text of 128
bytes or more, get after put on that exact clue returns not-found (the
stored key is the truncation of the argument). -/
theorem c10_amended :
    (∀ (ps : List (List Nat)) (k : List Nat),
        k ∈ exibirPistas (List.foldl inserirPista PistaTree.leaf ps) →
        k.length ≤ 127)
    ∧ (∀ (ops : List (List Nat × List Nat)) (i : Nat) (e : HashEntry),
        e ∈ montarTabela ops i → e.1.length ≤ 127 ∧ e.2.length ≤ 63)
    ∧ (∀ (ops : List (List Nat × List Nat)) (p s : List Nat), 128 ≤ p.length →
        encontrarSuspeito (inserirNaHash (montarTabela ops) p s) p = none) := by
  refine ⟨?_, ?_, ?_⟩
  · intro ps k hk
    exact inv_keys_short (inv_fold ps PistaTree.leaf Inv.leaf) k hk
  · intro ops i e he
    exact tableBounds_montar ops i e he
  · intro ops p s hp
    exact encontrar_long_none (tableBounds_montar ops) p s hp

set_option maxRecDepth 8192 in
theorem c10_witness :
    ([65] : List Nat).length ≤ 127
    ∧ ((([65], [66]) : HashEntry).1.length ≤ 127
        ∧ (([65], [66]) : HashEntry).2.length ≤ 63)
    ∧ encontrarSuspeito (inserirNaHash (montarTabela []) (List.replicate 128 65) [67])
        (List.replicate 128 65) = none :=
  ⟨c10_amended.1 [[65]] [65] (by decide),
   c10_amended.2.1 [([65], [66])] (hash_string [65] % 101) ([65], [66]) (by decide),
   c10_amended.2.2 [] (List.replicate 128 65) [67] (by decide)⟩

end DetectiveQuest
